import Mathlib

/-!
Verification development for apitrace's `src/cli/cli_trim.cpp`.

The file embeds, as Lean definitions:
  * the `ContiguousNumberTracker` class (lines 101-137 of `cli_trim.cpp`),
    with the `while (receivedOutOfOrder.erase(nextExpectedNumber))` catch-up
    loop of `finish` rendered as the well-founded recursion `catchUp`;
  * the streaming loop of `trim_trace` (lines 164-201) over a list of parsed
    calls, including the selection decision, the frame counter bookkeeping and
    the early-termination test;
  * the defaulting logic of `command` (lines 243-247);
  * the open-failure paths of `trim_trace` (lines 145-162).

C++ `unsigned` counters (`call->no`, `nextExpectedNumber`, `frame`) are
modelled as `Nat`; the 2^32 wraparound is unreachable for traces with fewer
than 2^32 calls and is not modelled.  The `int` thread option keeps its C
conversion semantics: `call->thread_id == options->thread` compares the two
values after conversion to `unsigned`, i.e. modulo 2^32.

The interface of `trace::CallSet` (declared in `trace_callset.hpp`, which is
not among the sources) is modelled from the specification, in the definitions
whose doc comments say so.
-/

namespace CliTrim

/-- The catch-up loop inside `ContiguousNumberTracker::finish`
(`cli_trim.cpp` lines 124-126): starting from a candidate next number and the
set of numbers received out of order, repeatedly erase the candidate from the
set and advance it while the erase succeeds.  Returns the final candidate and
the remaining set. -/
def catchUp (next : Nat) (s : Finset Nat) : Nat × Finset Nat :=
  if h : next ∈ s then catchUp (next + 1) (s.erase next) else (next, s)
termination_by s.card
decreasing_by exact Finset.card_erase_lt_of_mem h

theorem catchUp_eq (next : Nat) (s : Finset Nat) :
    catchUp next s =
      if next ∈ s then catchUp (next + 1) (s.erase next) else (next, s) := by
  rw [catchUp]
  by_cases h : next ∈ s
  · rw [dif_pos h, if_pos h]
  · rw [dif_neg h, if_neg h]

/-- State of the utility class `ContiguousNumberTracker`
(`cli_trim.cpp` lines 101-137). -/
structure ContiguousNumberTracker where
  nextExpectedNumber : Nat
  receivedOutOfOrder : Finset Nat
deriving DecidableEq

/-- A freshly constructed tracker: `nextExpectedNumber = 0` and an empty
out-of-order set (`cli_trim.cpp` lines 107-110). -/
def initTracker : ContiguousNumberTracker := ⟨0, ∅⟩

/-- `ContiguousNumberTracker::finish` (`cli_trim.cpp` lines 115-136): record
that number `n` is finished and return the updated `nextExpectedNumber`
together with the updated tracker state. -/
def ContiguousNumberTracker.finish (t : ContiguousNumberTracker) (n : Nat) :
    Nat × ContiguousNumberTracker :=
  if n = t.nextExpectedNumber then
    let r := catchUp (t.nextExpectedNumber + 1) t.receivedOutOfOrder
    (r.1, ⟨r.1, r.2⟩)
  else
    (t.nextExpectedNumber, ⟨t.nextExpectedNumber, insert n t.receivedOutOfOrder⟩)

/-- Run a sequence of `finish` calls, in list order, on a tracker. -/
def runFinishes (t : ContiguousNumberTracker) : List Nat → ContiguousNumberTracker
  | [] => t
  | n :: rest => runFinishes (t.finish n).2 rest

/-- Characterisation of the catch-up loop: it advances from `n` to the first
number `≥ n` that is not in the set, erasing exactly the numbers it passed
over. -/
theorem catchUp_spec (n : Nat) (s : Finset Nat) :
    n ≤ (catchUp n s).1 ∧
    (catchUp n s).1 ∉ (catchUp n s).2 ∧
    (∀ m, n ≤ m → m < (catchUp n s).1 → m ∈ s) ∧
    (∀ m, m ∈ (catchUp n s).2 ↔ m ∈ s ∧ ¬(n ≤ m ∧ m < (catchUp n s).1)) := by
  induction n, s using catchUp.induct with
  | case1 n s h ih =>
    rw [catchUp_eq, if_pos h]
    obtain ⟨ih1, ih2, ih3, ih4⟩ := ih
    refine ⟨by omega, ih2, ?_, ?_⟩
    · intro m hm1 hm2
      rcases Nat.eq_or_lt_of_le hm1 with hm1 | hm1
      · exact hm1 ▸ h
      · exact Finset.mem_of_mem_erase (ih3 m hm1 hm2)
    · intro m
      rw [ih4 m, Finset.mem_erase]
      constructor
      · rintro ⟨⟨hne, hmem⟩, hnot⟩
        refine ⟨hmem, fun hc => hnot ⟨by omega, hc.2⟩⟩
      · rintro ⟨hmem, hnot⟩
        have hne : m ≠ n := by
          rintro rfl
          exact hnot ⟨le_refl m, by omega⟩
        exact ⟨⟨hne, hmem⟩, fun hc => hnot ⟨by omega, hc.2⟩⟩
  | case2 n s h =>
    rw [catchUp_eq, if_neg h]
    refine ⟨le_refl n, h, fun m hm1 hm2 => absurd hm2 (by omega), fun m => ?_⟩
    constructor
    · intro hm
      refine ⟨hm, fun hc => ?_⟩
      omega
    · exact fun hm => hm.1

theorem finish_eq_pos (t : ContiguousNumberTracker) {n : Nat}
    (h : n = t.nextExpectedNumber) :
    t.finish n =
      ((catchUp (t.nextExpectedNumber + 1) t.receivedOutOfOrder).1,
       ⟨(catchUp (t.nextExpectedNumber + 1) t.receivedOutOfOrder).1,
        (catchUp (t.nextExpectedNumber + 1) t.receivedOutOfOrder).2⟩) := by
  subst h
  simp [ContiguousNumberTracker.finish]

theorem finish_eq_neg (t : ContiguousNumberTracker) (n : Nat)
    (h : n ≠ t.nextExpectedNumber) :
    t.finish n =
      (t.nextExpectedNumber,
       ⟨t.nextExpectedNumber, insert n t.receivedOutOfOrder⟩) := by
  simp [ContiguousNumberTracker.finish, h]

/-- Invariant relating a tracker to the (arbitrary, possibly repeating) list
of numbers finished so far: `nextExpectedNumber` is the least number not yet
finished, it is not in the out-of-order set, and above `nextExpectedNumber`
the out-of-order set holds exactly the finished numbers. -/
def TrackerInv (l : List Nat) (t : ContiguousNumberTracker) : Prop :=
  (∀ m, m < t.nextExpectedNumber → m ∈ l) ∧
  t.nextExpectedNumber ∉ l ∧
  t.nextExpectedNumber ∉ t.receivedOutOfOrder ∧
  (∀ m, t.nextExpectedNumber < m → (m ∈ t.receivedOutOfOrder ↔ m ∈ l))

theorem trackerInv_finish {l : List Nat} {t : ContiguousNumberTracker}
    (ht : TrackerInv l t) (n : Nat) :
    TrackerInv (l ++ [n]) (t.finish n).2 := by
  obtain ⟨ha, hb, hc, hd⟩ := ht
  by_cases hn : n = t.nextExpectedNumber
  · subst hn
    rw [finish_eq_pos t rfl]
    obtain ⟨s1, s2, s3, s4⟩ := catchUp_spec (t.nextExpectedNumber + 1) t.receivedOutOfOrder
    dsimp only [TrackerInv]
    refine ⟨?_, ?_, s2, ?_⟩
    · intro m hm
      simp only [List.mem_append, List.mem_singleton]
      rcases Nat.lt_trichotomy m t.nextExpectedNumber with h1 | h1 | h1
      · exact Or.inl (ha m h1)
      · exact Or.inr h1
      · exact Or.inl ((hd m h1).mp (s3 m (by omega) hm))
    · have hRs : (catchUp (t.nextExpectedNumber + 1) t.receivedOutOfOrder).1 ∉
          t.receivedOutOfOrder := by
        intro hmem
        exact s2 ((s4 _).mpr ⟨hmem, by omega⟩)
      simp only [List.mem_append, List.mem_singleton]
      rintro (hmem | heq)
      · exact hRs ((hd _ (by omega)).mpr hmem)
      · omega
    · intro m hm
      rw [s4 m]
      simp only [List.mem_append, List.mem_singleton]
      constructor
      · rintro ⟨hmem, -⟩
        exact Or.inl ((hd m (by omega)).mp hmem)
      · rintro (hmem | heq)
        · exact ⟨(hd m (by omega)).mpr hmem, by omega⟩
        · omega
  · rw [finish_eq_neg t n hn]
    dsimp only [TrackerInv]
    refine ⟨?_, ?_, ?_, ?_⟩
    · intro m hm
      exact List.mem_append_left _ (ha m hm)
    · simp only [List.mem_append, List.mem_singleton]
      rintro (hmem | heq)
      · exact hb hmem
      · exact hn heq.symm
    · simp only [Finset.mem_insert]
      rintro (heq | hmem)
      · exact hn heq.symm
      · exact hc hmem
    · intro m hm
      simp only [Finset.mem_insert, List.mem_append, List.mem_singleton]
      rw [hd m hm]
      tauto

theorem trackerInv_runFinishes : ∀ (l acc : List Nat) (t : ContiguousNumberTracker),
    TrackerInv acc t → TrackerInv (acc ++ l) (runFinishes t l)
  | [], acc, t, ht => by simpa [runFinishes] using ht
  | n :: rest, acc, t, ht => by
    rw [runFinishes]
    have h2 := trackerInv_runFinishes rest (acc ++ [n]) (t.finish n).2
      (trackerInv_finish ht n)
    simpa using h2

theorem trackerInv_init : TrackerInv [] initTracker := by
  dsimp only [TrackerInv, initTracker]
  exact ⟨fun m hm => absurd hm (by omega), by simp, by simp, fun m hm => by simp⟩

theorem trackerInv_run (l : List Nat) : TrackerInv l (runFinishes initTracker l) := by
  simpa using trackerInv_runFinishes l [] initTracker trackerInv_init

/-- The frontier after a sequence of finish calls is the least number that was
not finished. -/
theorem runFinishes_nextExpected (l : List Nat) (k : Nat)
    (hk : k ∉ l) (hka : ∀ j, j < k → j ∈ l) :
    (runFinishes initTracker l).nextExpectedNumber = k := by
  obtain ⟨ha, hb, -, -⟩ := trackerInv_run l
  by_contra hne
  rcases Nat.lt_or_ge (runFinishes initTracker l).nextExpectedNumber k with h | h
  · exact hb (hka _ h)
  · exact hk (ha k (by omega))

theorem catchUp_fst_not_mem (n : Nat) (s : Finset Nat) : (catchUp n s).1 ∉ s := by
  obtain ⟨h1, h2, h3, h4⟩ := catchUp_spec n s
  intro hmem
  exact h2 ((h4 _).mpr ⟨hmem, by omega⟩)

/-- The value returned by `finish` is exactly the updated
`nextExpectedNumber` field (`return nextExpectedNumber`, line 135). -/
theorem finish_fst (t : ContiguousNumberTracker) (n : Nat) :
    (t.finish n).1 = (t.finish n).2.nextExpectedNumber := by
  by_cases hn : n = t.nextExpectedNumber
  · rw [finish_eq_pos t hn]
  · rw [finish_eq_neg t n hn]

/-- `nextExpectedNumber` never decreases across a `finish` call. -/
theorem finish_mono (t : ContiguousNumberTracker) (n : Nat) :
    t.nextExpectedNumber ≤ (t.finish n).2.nextExpectedNumber := by
  by_cases hn : n = t.nextExpectedNumber
  · rw [finish_eq_pos t hn]
    dsimp only
    have h := (catchUp_spec (t.nextExpectedNumber + 1) t.receivedOutOfOrder).1
    omega
  · rw [finish_eq_neg t n hn]

theorem finish_gt {l : List Nat} {t : ContiguousNumberTracker}
    (ht : TrackerInv l t)
    (hgt : ∀ m ∈ t.receivedOutOfOrder, t.nextExpectedNumber < m)
    {n : Nat} (hn : n ∉ l) :
    ∀ m ∈ (t.finish n).2.receivedOutOfOrder,
      (t.finish n).2.nextExpectedNumber < m := by
  obtain ⟨ha, hb, hc, hd⟩ := ht
  by_cases he : n = t.nextExpectedNumber
  · rw [finish_eq_pos t he]
    dsimp only
    obtain ⟨s1, s2, s3, s4⟩ := catchUp_spec (t.nextExpectedNumber + 1) t.receivedOutOfOrder
    intro m hm
    have h2 := (s4 m).mp hm
    have h3 := hgt m h2.1
    have h4 : m ≠ (catchUp (t.nextExpectedNumber + 1) t.receivedOutOfOrder).1 := by
      rintro rfl
      exact s2 hm
    omega
  · rw [finish_eq_neg t n he]
    dsimp only
    intro m hm
    rcases Finset.mem_insert.mp hm with rfl | hm2
    · rcases Nat.lt_trichotomy t.nextExpectedNumber m with h | h | h
      · exact h
      · exact absurd h.symm he
      · exact absurd (ha m h) hn
    · exact hgt m hm2

theorem runFinishes_gt : ∀ (l acc : List Nat) (t : ContiguousNumberTracker),
    TrackerInv acc t →
    (∀ m ∈ t.receivedOutOfOrder, t.nextExpectedNumber < m) →
    (∀ x ∈ l, x ∉ acc) → l.Nodup →
    ∀ m ∈ (runFinishes t l).receivedOutOfOrder,
      (runFinishes t l).nextExpectedNumber < m
  | [], _, _, _, hgt, _, _ => by simpa [runFinishes] using hgt
  | n :: rest, acc, t, hinv, hgt, hfresh, hnd => by
    rw [runFinishes]
    refine runFinishes_gt rest (acc ++ [n]) (t.finish n).2
      (trackerInv_finish hinv n)
      (finish_gt hinv hgt (hfresh n (List.mem_cons_self n rest)))
      ?_ (List.nodup_cons.mp hnd).2
    intro x hx
    simp only [List.mem_append, List.mem_singleton]
    rintro (hx2 | rfl)
    · exact hfresh x (List.mem_cons_of_mem n hx) hx2
    · exact (List.nodup_cons.mp hnd).1 hx

/-- Under the call discipline (each number finished at most once), the
out-of-order set only ever holds numbers strictly above the frontier. -/
theorem runFinishes_outOfOrder_gt (l : List Nat) (hnd : l.Nodup) :
    ∀ m ∈ (runFinishes initTracker l).receivedOutOfOrder,
      (runFinishes initTracker l).nextExpectedNumber < m :=
  runFinishes_gt l [] initTracker trackerInv_init
    (by simp [initTracker]) (by simp) hnd

/-- Two trackers that agree on the frontier and on the out-of-order members
at or above the frontier; they differ only in stale entries below it. -/
def StaleEquiv (t1 t2 : ContiguousNumberTracker) : Prop :=
  t1.nextExpectedNumber = t2.nextExpectedNumber ∧
  ∀ m, t1.nextExpectedNumber ≤ m →
    (m ∈ t1.receivedOutOfOrder ↔ m ∈ t2.receivedOutOfOrder)

theorem catchUp_fst_eq_of_agree (n : Nat) (s1 s2 : Finset Nat)
    (hag : ∀ m, n ≤ m → (m ∈ s1 ↔ m ∈ s2)) :
    (catchUp n s1).1 = (catchUp n s2).1 := by
  obtain ⟨a1, a2, a3, a4⟩ := catchUp_spec n s1
  obtain ⟨b1, b2, b3, b4⟩ := catchUp_spec n s2
  by_contra hne
  rcases Nat.lt_or_ge (catchUp n s1).1 (catchUp n s2).1 with h | h
  · exact catchUp_fst_not_mem n s1 ((hag _ a1).mpr (b3 _ a1 h))
  · have h2 : (catchUp n s2).1 < (catchUp n s1).1 := by omega
    exact catchUp_fst_not_mem n s2 ((hag _ b1).mp (a3 _ b1 h2))

theorem staleEquiv_finish {t1 t2 : ContiguousNumberTracker}
    (h : StaleEquiv t1 t2) (n : Nat) :
    (t1.finish n).1 = (t2.finish n).1 ∧
    StaleEquiv (t1.finish n).2 (t2.finish n).2 := by
  obtain ⟨he, hag⟩ := h
  by_cases hn : n = t1.nextExpectedNumber
  · have hn2 : n = t2.nextExpectedNumber := by rw [← he]; exact hn
    have hfst := catchUp_fst_eq_of_agree (t1.nextExpectedNumber + 1)
      t1.receivedOutOfOrder t2.receivedOutOfOrder (fun m hm => hag m (by omega))
    rw [finish_eq_pos t1 hn, finish_eq_pos t2 hn2, ← he]
    dsimp only [StaleEquiv]
    refine ⟨hfst, hfst, ?_⟩
    intro m hm
    obtain ⟨a1, a2, a3, a4⟩ := catchUp_spec (t1.nextExpectedNumber + 1) t1.receivedOutOfOrder
    obtain ⟨b1, b2, b3, b4⟩ := catchUp_spec (t1.nextExpectedNumber + 1) t2.receivedOutOfOrder
    rw [a4 m, b4 m]
    constructor
    · rintro ⟨hmem, -⟩
      exact ⟨(hag m (by omega)).mp hmem, by omega⟩
    · rintro ⟨hmem, -⟩
      exact ⟨(hag m (by omega)).mpr hmem, by omega⟩
  · have hn2 : n ≠ t2.nextExpectedNumber := by rw [← he]; exact hn
    rw [finish_eq_neg t1 n hn, finish_eq_neg t2 n hn2]
    dsimp only [StaleEquiv]
    refine ⟨he, he, ?_⟩
    intro m hm
    simp only [Finset.mem_insert]
    rw [hag m hm]

theorem staleEquiv_runFinishes {t1 t2 : ContiguousNumberTracker}
    (h : StaleEquiv t1 t2) :
    ∀ l : List Nat, StaleEquiv (runFinishes t1 l) (runFinishes t2 l)
  | [] => by simpa [runFinishes] using h
  | n :: rest => by
    rw [runFinishes, runFinishes]
    exact staleEquiv_runFinishes ((staleEquiv_finish h n).2) rest

/-- A `finish` call with a number strictly below the frontier leaves the
frontier alone and merely inserts the stale number into the out-of-order
set. -/
theorem finish_stale_eq (t : ContiguousNumberTracker) {n : Nat}
    (h : n < t.nextExpectedNumber) :
    (t.finish n).1 = t.nextExpectedNumber ∧
    (t.finish n).2.nextExpectedNumber = t.nextExpectedNumber ∧
    (t.finish n).2.receivedOutOfOrder = insert n t.receivedOutOfOrder ∧
    StaleEquiv (t.finish n).2 t := by
  have hne : n ≠ t.nextExpectedNumber := by omega
  rw [finish_eq_neg t n hne]
  dsimp only [StaleEquiv]
  refine ⟨rfl, rfl, rfl, rfl, ?_⟩
  intro m hm
  simp only [Finset.mem_insert]
  constructor
  · rintro (rfl | hmem)
    · exact absurd hm (by omega)
    · exact hmem
  · exact fun hmem => Or.inr hmem

/-- Flags of a parsed call.  The loop of `trim_trace` inspects only the
`trace::CALL_FLAG_END_FRAME` bit (line 186), so only that bit is modelled;
the flags value is also forwarded to the frame-set membership test
(line 181). -/
structure CallFlags where
  endFrame : Bool
deriving DecidableEq

/-- A parsed call as consumed by the loop of `trim_trace`: its global
sequence number `no`, its originating `thread_id` (an `unsigned`) and its
flags.  The opaque payload plays no role in any decision and is not
modelled. -/
structure Call where
  no : Nat
  thread_id : Nat
  flags : CallFlags
deriving DecidableEq

/-- Modelled from the spec: `trace::CallSet` is declared in
`trace_callset.hpp`, which is not among the sources.  One inclusive range of
selected indices; an absent upper bound means "open-ended from `lo`". -/
structure CallRange where
  lo : Nat
  hi : Option Nat
deriving DecidableEq

/-- Modelled from the spec: the three-state frequency of a selection set -
"no indices" (`FREQUENCY_NONE`), "every index" (`FREQUENCY_ALL`), or an
explicit list of ranges. -/
inductive CallSet where
  | freqNone
  | freqAll
  | explicitRanges (rs : List CallRange)
deriving DecidableEq

/-- Modelled from the spec: membership of an index in one range. -/
def CallRange.containsIdx (r : CallRange) (n : Nat) : Bool :=
  decide (r.lo ≤ n) &&
    (match r.hi with
     | Option.none => true
     | Option.some h => decide (n ≤ h))

/-- Modelled from the spec: `contains(index)` is true iff the index falls in
at least one configured range; "every index" contains everything, "no
indices" nothing. -/
def CallSet.containsIdx : CallSet → Nat → Bool
  | CallSet.freqNone, _ => false
  | CallSet.freqAll, _ => true
  | CallSet.explicitRanges rs, n => rs.any (fun r => r.containsIdx n)

/-- Modelled from the spec: the overload `CallSet::contains(trace::Call&)`
used on line 181 judges the call's sequence number. -/
def CallSet.containsCall (s : CallSet) (c : Call) : Bool :=
  s.containsIdx c.no

/-- Modelled from the spec: the overload `CallSet::contains(frameno, flags)`
used on line 181 judges membership of the current frame counter; the call's
flags are forwarded as at the call site. -/
def CallSet.containsFrame (s : CallSet) (frame : Nat) (_flags : CallFlags) : Bool :=
  s.containsIdx frame

/-- Modelled from the spec: `empty()` is true iff the set was constructed as
"no indices" and never merged with a non-empty specification. -/
def CallSet.empty : CallSet → Bool
  | CallSet.freqNone => true
  | CallSet.freqAll => false
  | CallSet.explicitRanges rs => rs.isEmpty

/-- Modelled from the spec: `getLast()` reports the highest selected index,
with `Option.none` standing for "unbounded" ("every index", or an open-ended
range).  The sentinel returned for the empty set is irrelevant: the loop
consults `getLast()` only behind `empty()` (lines 196-197). -/
def CallSet.getLast : CallSet → Option Nat
  | CallSet.freqNone => Option.some 0
  | CallSet.freqAll => Option.none
  | CallSet.explicitRanges rs =>
      if rs.any (fun r => r.hi.isNone) then Option.none
      else Option.some (rs.foldr (fun r m => max (r.hi.getD 0) m) 0)

/-- Modelled from the spec: the comparison `value > set.getLast()` of the
early-termination test (lines 196-197); an unbounded set is never
exceeded. -/
def lastExceeded (s : CallSet) (n : Nat) : Bool :=
  match s.getLast with
  | Option.none => false
  | Option.some h => decide (h < n)

/-- The option record of `trim_trace` (`struct trim_options`, lines 83-95):
the calls and frames selections and the thread filter (`-1` = all threads).
The output path plays no role in any claim about the loop and is not
modelled. -/
structure TrimOptions where
  calls : CallSet
  frames : CallSet
  thread : Int
deriving DecidableEq

/-- The thread filter of line 180: `options->thread == -1` admits every
call; otherwise `call->thread_id == options->thread` compares the two values
after the C conversion of the `int` operand to `unsigned`, i.e. modulo
2^32. -/
def threadMatches (thread : Int) (c : Call) : Bool :=
  thread == -1 ||
    decide ((c.thread_id % 2 ^ 32 : Nat) = (thread % (2 ^ 32 : Int)).toNat)

/-- The selection decision of lines 180-182: thread filter AND (calls
selection on the sequence number OR frames selection on the current frame
counter). -/
def selected (opts : TrimOptions) (frame : Nat) (c : Call) : Bool :=
  threadMatches opts.thread c &&
    (opts.calls.containsCall c || opts.frames.containsFrame frame c.flags)

/-- Loop state of `trim_trace`: the frame counter, the call-number tracker
and the calls written to the output so far. -/
structure TrimState where
  frame : Nat
  tracker : ContiguousNumberTracker
  written : List Call
deriving DecidableEq

/-- State on entry to the loop (lines 158-167): frame counter 0, fresh
tracker, nothing written. -/
def initState : TrimState := ⟨0, initTracker, []⟩

/-- One iteration of the loop body (lines 169-191): mark the call's number
finished, write the call if selected (the decision reads the pre-increment
frame counter), then bump the frame counter if the call ends a frame.  Also
returns `nextExpectedCall`, the value `finish` returned (line 174). -/
def trimStep (opts : TrimOptions) (st : TrimState) (c : Call) : TrimState × Nat :=
  (⟨if c.flags.endFrame then st.frame + 1 else st.frame,
    (st.tracker.finish c.no).2,
    if selected opts st.frame c then st.written ++ [c] else st.written⟩,
   (st.tracker.finish c.no).1)

/-- The early-termination test of lines 196-200, taken after the frame
counter update with the `nextExpectedCall` of the current iteration. -/
def stopCond (opts : TrimOptions) (nextExpectedCall frame : Nat) : Bool :=
  (opts.calls.empty || lastExceeded opts.calls nextExpectedCall) &&
  (opts.frames.empty || lastExceeded opts.frames frame)

/-- The loop of lines 169-201 over the stream of parsed calls: returns the
final state together with the list of calls the loop actually read and
processed (the loop breaks as soon as `stopCond` holds). -/
def trimRun (opts : TrimOptions) (st : TrimState) : List Call → TrimState × List Call
  | [] => (st, [])
  | c :: rest =>
    if stopCond opts (trimStep opts st c).2 (trimStep opts st c).1.frame then
      ((trimStep opts st c).1, [c])
    else
      ((trimRun opts (trimStep opts st c).1 rest).1,
       c :: (trimRun opts (trimStep opts st c).1 rest).2)

/-- The defaulting performed by `command` (lines 243-247): if neither
`--calls` nor `--frames` produced a non-empty selection, select every
call. -/
def resolveDefaultCallSet (opts : TrimOptions) : TrimOptions :=
  if opts.calls.empty && opts.frames.empty then
    ⟨CallSet.freqAll, opts.frames, opts.thread⟩
  else opts

/-- Which open call failed in `trim_trace` (lines 145-148 and 158-162). -/
inductive OpenFailure where
  | inputOpenFailed
  | outputCreateFailed
deriving DecidableEq

/-- Result of one `trim_trace` invocation: the exit status, which side (if
any) failed to open, whether a mid-stream read failure was surfaced, the
calls written and the calls read. -/
structure TrimResult where
  exitCode : Nat
  failure : Option OpenFailure
  ioErrorReported : Bool
  written : List Call
  processed : List Call
deriving DecidableEq

/-- Modelled from the spec: `trace::Parser` (declared in `trace_parser.hpp`,
not among the sources) surfaces a mid-stream read failure as an `IOError` of
its own before `parse_call` returns null, so the loop sees exactly the calls
delivered before the failure and the failure is reported, not swallowed. -/
def midStreamErrorReported (readError : Bool) : Bool := readError

/-- `trim_trace` (lines 139-206): report and fail if the input cannot be
opened, then if the output cannot be created, otherwise run the loop over the
calls the parser delivers (`events` is the full stream, or the prefix read
before a mid-stream failure when `readError` is set) and exit with
status 0. -/
def trim_trace (inputOk outputOk : Bool) (opts : TrimOptions)
    (events : List Call) (readError : Bool) : TrimResult :=
  if inputOk = false then
    ⟨1, Option.some OpenFailure.inputOpenFailed, false, [], []⟩
  else if outputOk = false then
    ⟨1, Option.some OpenFailure.outputCreateFailed, false, [], []⟩
  else
    ⟨0, Option.none, midStreamErrorReported readError,
     (trimRun opts initState events).1.written,
     (trimRun opts initState events).2⟩

theorem trimRun_cons (opts : TrimOptions) (st : TrimState) (c : Call)
    (rest : List Call) :
    trimRun opts st (c :: rest) =
      if stopCond opts (trimStep opts st c).2 (trimStep opts st c).1.frame then
        ((trimStep opts st c).1, [c])
      else
        ((trimRun opts (trimStep opts st c).1 rest).1,
         c :: (trimRun opts (trimStep opts st c).1 rest).2) := by
  simp only [trimRun]

theorem trimRun_processed_ne_nil (opts : TrimOptions) (st : TrimState)
    (c : Call) (rest : List Call) :
    (trimRun opts st (c :: rest)).2 ≠ [] := by
  rw [trimRun_cons]
  by_cases h : stopCond opts (trimStep opts st c).2 (trimStep opts st c).1.frame
  · rw [if_pos h]
    simp
  · rw [if_neg h]
    simp

theorem trimRun_no_stop (opts : TrimOptions)
    (hstop : ∀ n f, stopCond opts n f = false) :
    ∀ (l : List Call) (st : TrimState), (trimRun opts st l).2 = l
  | [], _ => rfl
  | c :: rest, st => by
    rw [trimRun_cons]
    simp only [hstop, Bool.false_eq_true, if_false]
    exact congrArg (List.cons c) (trimRun_no_stop opts hstop rest (trimStep opts st c).1)

theorem trimRun_written_no_stop (opts : TrimOptions) (p : Call → Bool)
    (hstop : ∀ n f, stopCond opts n f = false)
    (hsel : ∀ f c, selected opts f c = p c) :
    ∀ (l : List Call) (st : TrimState),
      (trimRun opts st l).1.written = st.written ++ l.filter p
  | [], st => by simp [trimRun]
  | c :: rest, st => by
    rw [trimRun_cons]
    simp only [hstop, Bool.false_eq_true, if_false]
    rw [trimRun_written_no_stop opts p hstop hsel rest (trimStep opts st c).1]
    cases hp : p c <;>
      simp [trimStep, hsel, hp, List.filter_cons]

theorem trimRun_frame_count (opts : TrimOptions) :
    ∀ (l : List Call) (st : TrimState),
      (trimRun opts st l).1.frame =
        st.frame + List.countP (fun c => c.flags.endFrame) (trimRun opts st l).2
  | [], st => by simp [trimRun]
  | c :: rest, st => by
    rw [trimRun_cons]
    by_cases h : stopCond opts (trimStep opts st c).2 (trimStep opts st c).1.frame
    · rw [if_pos h]
      cases hc : c.flags.endFrame <;>
        simp [trimStep, List.countP_cons, hc]
    · rw [if_neg h]
      dsimp only
      rw [List.countP_cons, trimRun_frame_count opts rest (trimStep opts st c).1]
      have hS : (trimStep opts st c).1.frame =
          if c.flags.endFrame then st.frame + 1 else st.frame := rfl
      rw [hS]
      cases hc : c.flags.endFrame
      · simp only [hc, if_false, Bool.false_eq_true]
        omega
      · simp only [hc, if_true]
        omega

theorem catchUp_empty (n : Nat) : catchUp n (∅ : Finset Nat) = (n, ∅) := by
  rw [catchUp_eq]
  simp

theorem catchUp_singleton (n : Nat) : catchUp n ({n} : Finset Nat) = (n + 1, ∅) := by
  rw [catchUp_eq]
  simp [Finset.erase_singleton, catchUp_empty]

theorem finish_eval_init_zero :
    initTracker.finish 0 = (1, ⟨1, ∅⟩) := by
  rw [finish_eq_pos initTracker
    (show (0 : Nat) = initTracker.nextExpectedNumber from rfl)]
  have h : initTracker.receivedOutOfOrder = (∅ : Finset Nat) := rfl
  rw [h]
  norm_num [catchUp_empty, initTracker]

theorem trimRun_processed_le (opts : TrimOptions) :
    ∀ (l : List Call) (st : TrimState),
      (trimRun opts st l).2.length ≤ l.length
  | [], _ => Nat.le_refl 0
  | c :: rest, st => by
    rw [trimRun_cons]
    by_cases h : stopCond opts (trimStep opts st c).2 (trimStep opts st c).1.frame
    · rw [if_pos h]
      dsimp only
      simp only [List.length_cons, List.length_nil]
      omega
    · rw [if_neg h]
      dsimp only
      have hrec := trimRun_processed_le opts rest (trimStep opts st c).1
      simp only [List.length_cons]
      omega

theorem threadMatches_iff (thread : Int) (c : Call)
    (hth : thread = -1 ∨ (0 ≤ thread ∧ thread < 2 ^ 32))
    (hid : c.thread_id < 2 ^ 32) :
    (threadMatches thread c = true) ↔
      (thread = -1 ∨ (c.thread_id : Int) = thread) := by
  unfold threadMatches
  rcases hth with h | ⟨h0, h32⟩
  · subst h
    simp
  · have h1 : (thread == -1) = false := by
      rw [beq_eq_false_iff_ne]
      omega
    rw [h1, Bool.false_or, decide_eq_true_eq]
    rw [Nat.mod_eq_of_lt hid, Int.emod_eq_of_lt h0 h32]
    constructor
    · intro he
      exact Or.inr (by omega)
    · rintro (he | he)
      · omega
      · omega

/-- The 0,2,1,3 scenario (spec section 8): calls whose sequence numbers
arrive in the order 0, 2, 1, 3, all on thread 0, no frame boundaries. -/
def interleavedCall (n : Nat) : Call := ⟨n, 0, ⟨false⟩⟩

def interleavedStream : List Call :=
  [interleavedCall 0, interleavedCall 2, interleavedCall 1, interleavedCall 3]

/-- Options of the 0,2,1,3 scenario: calls selection `{0-2}`, no frames
selection, all threads. -/
def interleavedOpts : TrimOptions :=
  ⟨CallSet.explicitRanges [⟨0, Option.some 2⟩], CallSet.freqNone, -1⟩

/-- Concrete options used by several witnesses: no selections, all
threads. -/
def witnessOpts : TrimOptions := ⟨CallSet.freqNone, CallSet.freqNone, -1⟩

/-- Claim C1: on a fresh `ContiguousNumberTracker`, finishing the numbers
`0, ..., N-1` in any order leaves `nextExpectedNumber = N`; finishing, in any
order, a strict subset of `{0, ..., N-1}` whose least missing index is `k`
leaves `nextExpectedNumber = k`. -/
theorem C1_tracker_completion (N : Nat) (l lsub : List Nat) (k : Nat)
    (hperm : l.Perm (List.range N))
    (_hsub : ∀ m ∈ lsub, m < N) (_hnd : lsub.Nodup) (_hkN : k < N)
    (hk : k ∉ lsub) (hkleast : ∀ j, j < k → j ∈ lsub) :
    (runFinishes initTracker l).nextExpectedNumber = N ∧
    (runFinishes initTracker lsub).nextExpectedNumber = k := by
  constructor
  · refine runFinishes_nextExpected l N ?_ ?_
    · intro hmem
      have h2 := hperm.mem_iff.mp hmem
      rw [List.mem_range] at h2
      omega
    · intro j hj
      exact hperm.mem_iff.mpr (List.mem_range.mpr hj)
  · exact runFinishes_nextExpected lsub k hk hkleast

/-- Witness for C1 at N = 3 with the permutation `[2, 0, 1]` and the strict
subset `[0, 2]`, whose least missing index is 1. -/
theorem C1_tracker_completion_witness :
    (([2, 0, 1] : List Nat).Perm (List.range 3) ∧
     (∀ m ∈ ([0, 2] : List Nat), m < 3) ∧
     ([0, 2] : List Nat).Nodup ∧ 1 < 3 ∧ 1 ∉ ([0, 2] : List Nat) ∧
     (∀ j, j < 1 → j ∈ ([0, 2] : List Nat))) ∧
    (runFinishes initTracker [2, 0, 1]).nextExpectedNumber = 3 ∧
    (runFinishes initTracker [0, 2]).nextExpectedNumber = 1 := by
  have hleast : ∀ j, j < 1 → j ∈ ([0, 2] : List Nat) := by
    intro j hj
    have hj0 : j = 0 := by omega
    rw [hj0]
    simp
  exact ⟨⟨by decide, by decide, by decide, by decide, by decide, hleast⟩,
    C1_tracker_completion 3 [2, 0, 1] [0, 2] 1 (by decide) (by decide)
      (by decide) (by decide) (by decide) hleast⟩

/-- Claim C10: after any `finish` call made under the call discipline (each
number finished at most once), the returned value equals the tracker's
`nextExpectedNumber` field, that field is not a member of the out-of-order
set, and it is at least its value before the call. -/
theorem C10_finish_postconditions (l : List Nat) (n : Nat)
    (_hdisc : (n :: l).Nodup) :
    ((runFinishes initTracker l).finish n).1 =
      ((runFinishes initTracker l).finish n).2.nextExpectedNumber ∧
    ((runFinishes initTracker l).finish n).2.nextExpectedNumber ∉
      ((runFinishes initTracker l).finish n).2.receivedOutOfOrder ∧
    (runFinishes initTracker l).nextExpectedNumber ≤
      ((runFinishes initTracker l).finish n).2.nextExpectedNumber :=
  ⟨finish_fst _ n, (trackerInv_finish (trackerInv_run l) n).2.2.1,
   finish_mono _ n⟩

/-- Witness for C10: the tracker that finished `[1]` then finishes 0. -/
theorem C10_finish_postconditions_witness :
    ((0 :: [1]) : List Nat).Nodup ∧
    (((runFinishes initTracker [1]).finish 0).1 =
      ((runFinishes initTracker [1]).finish 0).2.nextExpectedNumber ∧
     ((runFinishes initTracker [1]).finish 0).2.nextExpectedNumber ∉
      ((runFinishes initTracker [1]).finish 0).2.receivedOutOfOrder ∧
     (runFinishes initTracker [1]).nextExpectedNumber ≤
      ((runFinishes initTracker [1]).finish 0).2.nextExpectedNumber) :=
  ⟨by decide, C10_finish_postconditions [1] 0 (by decide)⟩

/-- Claim C2: after each loop iteration the pipeline stops reading iff (the
calls selection is empty OR the returned `nextExpectedCall` exceeds its
highest selected index) AND (the frames selection is empty OR the updated
frame counter exceeds its highest selected index); and a non-empty unbounded
selection on either axis makes its clause false, so the loop reads the whole
input. -/
theorem C2_early_termination :
    (∀ (opts : TrimOptions) (st : TrimState) (c : Call) (rest : List Call),
      ((trimRun opts st (c :: rest)).2 = [c] ↔
        (rest = [] ∨
         ((opts.calls.empty ||
             lastExceeded opts.calls (st.tracker.finish c.no).1) &&
          (opts.frames.empty ||
             lastExceeded opts.frames
               (if c.flags.endFrame then st.frame + 1 else st.frame))) = true))) ∧
    (∀ opts : TrimOptions,
      (opts.calls.empty = false ∧ opts.calls.getLast = Option.none) ∨
      (opts.frames.empty = false ∧ opts.frames.getLast = Option.none) →
      ∀ (st : TrimState) (l : List Call), (trimRun opts st l).2 = l) := by
  constructor
  · intro opts st c rest
    have hcond : ((opts.calls.empty ||
          lastExceeded opts.calls (st.tracker.finish c.no).1) &&
        (opts.frames.empty ||
          lastExceeded opts.frames
            (if c.flags.endFrame then st.frame + 1 else st.frame))) =
        stopCond opts (trimStep opts st c).2 (trimStep opts st c).1.frame := rfl
    rw [hcond, trimRun_cons]
    by_cases h : stopCond opts (trimStep opts st c).2 (trimStep opts st c).1.frame
    · rw [if_pos h]
      exact iff_of_true rfl (Or.inr h)
    · rw [if_neg h]
      cases rest with
      | nil =>
        refine iff_of_true ?_ (Or.inl rfl)
        simp [trimRun]
      | cons c2 r2 =>
        refine iff_of_false ?_ ?_
        · intro hl
          have hne := trimRun_processed_ne_nil opts (trimStep opts st c).1 c2 r2
          have hl2 : c :: (trimRun opts (trimStep opts st c).1 (c2 :: r2)).2 =
              [c] := hl
          rw [List.cons_eq_cons] at hl2
          exact hne hl2.2
        · rintro (habs | habs)
          · exact List.cons_ne_nil c2 r2 habs
          · exact h habs
  · intro opts h st l
    apply trimRun_no_stop
    intro n f
    rcases h with ⟨he, hl⟩ | ⟨he, hl⟩
    · simp [stopCond, he, lastExceeded, hl]
    · simp [stopCond, he, lastExceeded, hl]

/-- Witness for C2: an unbounded calls selection makes the loop read a
two-call stream to the end. -/
theorem C2_early_termination_witness :
    ((CallSet.freqAll.empty = false ∧ CallSet.freqAll.getLast = Option.none) ∨
     (CallSet.freqNone.empty = false ∧ CallSet.freqNone.getLast = Option.none)) ∧
    (trimRun ⟨CallSet.freqAll, CallSet.freqNone, -1⟩ initState
        [⟨0, 0, ⟨false⟩⟩, ⟨1, 0, ⟨false⟩⟩]).2 =
      [⟨0, 0, ⟨false⟩⟩, ⟨1, 0, ⟨false⟩⟩] := by
  have h : (CallSet.freqAll.empty = false ∧
        CallSet.freqAll.getLast = Option.none) ∨
      (CallSet.freqNone.empty = false ∧
        CallSet.freqNone.getLast = Option.none) := Or.inl ⟨rfl, rfl⟩
  exact ⟨h, C2_early_termination.2 ⟨CallSet.freqAll, CallSet.freqNone, -1⟩ h
    initState [⟨0, 0, ⟨false⟩⟩, ⟨1, 0, ⟨false⟩⟩]⟩

/-- Claim C3: a call is written to the sink iff the thread filter is "all
threads" (-1) or equals the call's thread id, and the call's sequence number
is in the calls selection or the current frame counter is in the frames
selection (judged with the call's flags). -/
theorem C3_selection_decision (opts : TrimOptions) (st : TrimState) (c : Call)
    (hth : opts.thread = -1 ∨ (0 ≤ opts.thread ∧ opts.thread < 2 ^ 32))
    (hid : c.thread_id < 2 ^ 32) :
    ((trimStep opts st c).1.written = st.written ++ [c] ↔
      ((opts.thread = -1 ∨ (c.thread_id : Int) = opts.thread) ∧
       (opts.calls.containsCall c = true ∨
        opts.frames.containsFrame st.frame c.flags = true))) ∧
    ((trimStep opts st c).1.written = st.written ++ [c] ∨
     (trimStep opts st c).1.written = st.written) := by
  have hw : (trimStep opts st c).1.written =
      if selected opts st.frame c then st.written ++ [c] else st.written := rfl
  constructor
  · rw [hw]
    by_cases hsel : selected opts st.frame c
    · rw [if_pos hsel]
      unfold selected at hsel
      rw [Bool.and_eq_true, Bool.or_eq_true] at hsel
      exact iff_of_true rfl
        ⟨(threadMatches_iff opts.thread c hth hid).mp hsel.1, hsel.2⟩
    · rw [if_neg hsel]
      refine iff_of_false (by simp) ?_
      rintro ⟨ht, hc2⟩
      apply hsel
      unfold selected
      rw [Bool.and_eq_true, Bool.or_eq_true]
      exact ⟨(threadMatches_iff opts.thread c hth hid).mpr ht, hc2⟩
  · rw [hw]
    by_cases hsel : selected opts st.frame c
    · rw [if_pos hsel]
      exact Or.inl rfl
    · rw [if_neg hsel]
      exact Or.inr rfl

/-- Witness for C3: thread filter 5 on a call of thread 5 with an unbounded
calls selection; the call is written. -/
theorem C3_selection_decision_witness :
    (((5 : Int) = -1 ∨ (0 ≤ (5 : Int) ∧ (5 : Int) < 2 ^ 32)) ∧
     (5 : Nat) < 2 ^ 32) ∧
    ((trimStep ⟨CallSet.freqAll, CallSet.freqNone, 5⟩ initState
        ⟨0, 5, ⟨false⟩⟩).1.written = initState.written ++ [⟨0, 5, ⟨false⟩⟩] ↔
      (((5 : Int) = -1 ∨ (((5 : Nat) : Int) = 5)) ∧
       (CallSet.freqAll.containsCall ⟨0, 5, ⟨false⟩⟩ = true ∨
        CallSet.freqNone.containsFrame initState.frame ⟨false⟩ = true))) := by
  refine ⟨⟨Or.inr ⟨by decide, by decide⟩, by decide⟩, ?_⟩
  exact (C3_selection_decision ⟨CallSet.freqAll, CallSet.freqNone, 5⟩ initState
    ⟨0, 5, ⟨false⟩⟩ (Or.inr ⟨by decide, by decide⟩) (by decide)).1

/-- Claim C4 counterexample: in the 0,2,1,3 scenario, after the loop
iteration that processes the call numbered 2 the tracker has returned 1 -
number 1 has not been finished yet - not 2 as the claim asserts. -/
theorem C4_counterexample :
    (trimStep interleavedOpts
        (trimStep interleavedOpts initState (interleavedCall 0)).1
        (interleavedCall 2)).2 = 1 ∧
    ¬ (trimStep interleavedOpts
        (trimStep interleavedOpts initState (interleavedCall 0)).1
        (interleavedCall 2)).2 = 2 := by
  have h : (trimStep interleavedOpts
      (trimStep interleavedOpts initState (interleavedCall 0)).1
      (interleavedCall 2)).2 = 1 := by
    simp [trimStep, initState, initTracker, interleavedCall, interleavedOpts,
      selected, threadMatches, ContiguousNumberTracker.finish, catchUp_eq]
  refine ⟨h, ?_⟩
  rw [h]
  decide

/-- Claim C4 amended: in the 0,2,1,3 scenario with calls selection `{0-2}`
the pipeline writes exactly the calls numbered 0, 2, 1 (the set {0, 1, 2}) in
arrival order; it does not stop after the call numbered 2 (it also reads the
call numbered 1, stopping only then, so the call numbered 3 is never read),
because the tracker's value after the call numbered 2 is still 1, which does
not exceed the highest selected index 2. -/
theorem C4_amended :
    (trimRun interleavedOpts initState interleavedStream).1.written =
      [interleavedCall 0, interleavedCall 2, interleavedCall 1] ∧
    (trimRun interleavedOpts initState interleavedStream).2 =
      [interleavedCall 0, interleavedCall 2, interleavedCall 1] ∧
    (trimStep interleavedOpts
        (trimStep interleavedOpts initState (interleavedCall 0)).1
        (interleavedCall 2)).2 = 1 := by
  refine ⟨?_, ?_, ?_⟩ <;>
    simp [trimRun, trimStep, initState, initTracker, interleavedOpts,
      interleavedStream, interleavedCall, selected, threadMatches, stopCond,
      lastExceeded, CallSet.containsCall, CallSet.containsFrame,
      CallSet.containsIdx, CallRange.containsIdx, CallSet.empty,
      CallSet.getLast, ContiguousNumberTracker.finish, catchUp_eq,
      Finset.erase_insert]

/-- Claim C5 counterexample: calling `finish(0)` twice on a fresh tracker
makes the second call - whose argument 0 is below the frontier 1 - insert the
stale number: afterwards the out-of-order set contains 0, which is less than
`nextExpectedNumber = 1`, so the call is neither a no-op nor does the claimed
invariant hold for arbitrary call sequences. -/
theorem C5_stale_counterexample :
    ((initTracker.finish 0).2.finish 0).2.nextExpectedNumber = 1 ∧
    0 ∈ ((initTracker.finish 0).2.finish 0).2.receivedOutOfOrder := by
  rw [finish_eval_init_zero]
  rw [finish_eq_neg _ 0 (by decide)]
  simp

/-- Claim C5 amended: a `finish(n)` call with `n` strictly below the current
`nextExpectedNumber` leaves the frontier unchanged (and every later call
sequence produces the same frontier as if the stale call had not inserted
anything), but it does insert `n` into the out-of-order set; under the
pipeline's call discipline (no number finished twice) such a call never
happens and the out-of-order set only holds indices strictly greater than
`nextExpectedNumber`. -/
theorem C5_amended :
    (∀ (t : ContiguousNumberTracker) (n : Nat), n < t.nextExpectedNumber →
      (t.finish n).1 = t.nextExpectedNumber ∧
      (t.finish n).2.nextExpectedNumber = t.nextExpectedNumber ∧
      (t.finish n).2.receivedOutOfOrder = insert n t.receivedOutOfOrder ∧
      ∀ l : List Nat,
        (runFinishes (t.finish n).2 l).nextExpectedNumber =
        (runFinishes t l).nextExpectedNumber) ∧
    (∀ l : List Nat, l.Nodup →
      ∀ m ∈ (runFinishes initTracker l).receivedOutOfOrder,
        (runFinishes initTracker l).nextExpectedNumber < m) := by
  constructor
  · intro t n hn
    obtain ⟨h1, h2, h3, h4⟩ := finish_stale_eq t hn
    exact ⟨h1, h2, h3, fun l => (staleEquiv_runFinishes h4 l).1⟩
  · exact runFinishes_outOfOrder_gt

/-- Witness for the amended C5: the tracker `⟨1, ∅⟩` receiving the stale call
`finish(0)`, and the disciplined sequence `[0, 2]`. -/
theorem C5_amended_witness :
    (0 < (⟨1, (∅ : Finset Nat)⟩ : ContiguousNumberTracker).nextExpectedNumber ∧
     ((⟨1, (∅ : Finset Nat)⟩ : ContiguousNumberTracker).finish
        0).2.nextExpectedNumber = 1) ∧
    ([0, 2] : List Nat).Nodup ∧
    (∀ m ∈ (runFinishes initTracker [0, 2]).receivedOutOfOrder,
      (runFinishes initTracker [0, 2]).nextExpectedNumber < m) := by
  refine ⟨⟨by decide, ?_⟩, by decide, C5_amended.2 [0, 2] (by decide)⟩
  exact (C5_amended.1 ⟨1, ∅⟩ 0 (by decide)).2.1

/-- Claim C6: the frame counter is bumped exactly when the processed call has
the end-of-frame flag, unconditionally (the written list is decided
independently, from the pre-increment frame counter, so the frame-ending call
is attributed to the frame it ends); over a whole run the final counter is
the initial one plus the number of end-of-frame calls processed. -/
theorem C6_frame_counter (opts : TrimOptions) (st : TrimState) (c : Call) :
    ((trimStep opts st c).1.frame =
      if c.flags.endFrame then st.frame + 1 else st.frame) ∧
    ((trimStep opts st c).1.written =
      if selected opts st.frame c then st.written ++ [c] else st.written) ∧
    ∀ l : List Call,
      (trimRun opts st l).1.frame =
        st.frame + List.countP (fun d => d.flags.endFrame) (trimRun opts st l).2 :=
  ⟨rfl, rfl, fun l => trimRun_frame_count opts l st⟩

/-- Claim C7: when neither the calls nor the frames selection was set,
`command` replaces the calls selection by "everything", so a call is selected
iff it passes the thread filter, and the loop reads every call of the
stream. -/
theorem C7_default_everything (opts : TrimOptions)
    (h1 : opts.calls = CallSet.freqNone) (h2 : opts.frames = CallSet.freqNone) :
    (resolveDefaultCallSet opts).calls = CallSet.freqAll ∧
    (∀ (f : Nat) (c : Call),
      selected (resolveDefaultCallSet opts) f c = threadMatches opts.thread c) ∧
    (∀ (st : TrimState) (l : List Call),
      (trimRun (resolveDefaultCallSet opts) st l).1.written =
        st.written ++ l.filter (threadMatches opts.thread) ∧
      (trimRun (resolveDefaultCallSet opts) st l).2 = l) := by
  have hopts : resolveDefaultCallSet opts =
      ⟨CallSet.freqAll, CallSet.freqNone, opts.thread⟩ := by
    unfold resolveDefaultCallSet
    rw [h1, h2]
    simp [CallSet.empty]
  have hsel : ∀ (f : Nat) (c : Call),
      selected (resolveDefaultCallSet opts) f c = threadMatches opts.thread c := by
    intro f c
    rw [hopts]
    simp [selected, CallSet.containsCall, CallSet.containsIdx]
  have hstop : ∀ n f, stopCond (resolveDefaultCallSet opts) n f = false := by
    intro n f
    rw [hopts]
    simp [stopCond, CallSet.empty, lastExceeded, CallSet.getLast]
  refine ⟨by rw [hopts], hsel, fun st l => ⟨?_, trimRun_no_stop _ hstop l st⟩⟩
  exact trimRun_written_no_stop _ (threadMatches opts.thread) hstop hsel l st

/-- Witness for C7 at the all-threads options with both selections unset, on
a one-call stream. -/
theorem C7_default_everything_witness :
    (witnessOpts.calls = CallSet.freqNone ∧
     witnessOpts.frames = CallSet.freqNone) ∧
    (resolveDefaultCallSet witnessOpts).calls = CallSet.freqAll ∧
    (∀ (f : Nat) (c : Call),
      selected (resolveDefaultCallSet witnessOpts) f c =
        threadMatches witnessOpts.thread c) ∧
    (∀ (st : TrimState) (l : List Call),
      (trimRun (resolveDefaultCallSet witnessOpts) st l).1.written =
        st.written ++ l.filter (threadMatches witnessOpts.thread) ∧
      (trimRun (resolveDefaultCallSet witnessOpts) st l).2 = l) :=
  ⟨⟨rfl, rfl⟩, C7_default_everything witnessOpts rfl rfl⟩

/-- Claim C8: when the input cannot be opened, or the output cannot be
created, `trim_trace` exits with status 1 and a failure record naming the
side that failed, and neither reads nor writes any call. -/
theorem C8_open_failure (inputOk outputOk : Bool) (opts : TrimOptions)
    (events : List Call) (readError : Bool)
    (h : inputOk = false ∨ outputOk = false) :
    (trim_trace inputOk outputOk opts events readError).exitCode = 1 ∧
    (trim_trace inputOk outputOk opts events readError).written = [] ∧
    (trim_trace inputOk outputOk opts events readError).processed = [] ∧
    (trim_trace inputOk outputOk opts events readError).failure =
      (if inputOk = false then Option.some OpenFailure.inputOpenFailed
       else Option.some OpenFailure.outputCreateFailed) := by
  by_cases hi : inputOk = false
  · simp [trim_trace, hi]
  · have ho : outputOk = false := by
      rcases h with h2 | h2
      · exact absurd h2 hi
      · exact h2
    simp [trim_trace, hi, ho]

/-- Witness for C8: a failing input open. -/
theorem C8_open_failure_witness :
    ((false = false) ∨ (true = false)) ∧
    ((trim_trace false true witnessOpts [] false).exitCode = 1 ∧
     (trim_trace false true witnessOpts [] false).written = [] ∧
     (trim_trace false true witnessOpts [] false).processed = [] ∧
     (trim_trace false true witnessOpts [] false).failure =
      (if false = false then Option.some OpenFailure.inputOpenFailed
       else Option.some OpenFailure.outputCreateFailed)) :=
  ⟨Or.inl rfl, C8_open_failure false true witnessOpts [] false (Or.inl rfl)⟩

/-- Claim C9: a mid-stream read failure is surfaced (by the parser, per the
specification) rather than swallowed; the loop stops within the calls
delivered before the failure, and the calls already written stay exactly as
a run over that prefix leaves them - no rollback. -/
theorem C9_midstream_failure (opts : TrimOptions) (delivered : List Call) :
    (trim_trace true true opts delivered true).ioErrorReported = true ∧
    (trim_trace true true opts delivered true).written =
      (trimRun opts initState delivered).1.written ∧
    (trim_trace true true opts delivered true).processed =
      (trimRun opts initState delivered).2 ∧
    (trim_trace true true opts delivered true).processed.length ≤
      delivered.length ∧
    (trim_trace true true opts delivered true).written =
      (trim_trace true true opts delivered false).written :=
  ⟨rfl, rfl, rfl, trimRun_processed_le opts delivered initState, rfl⟩

end CliTrim
